import Mathlib

/-!
Verification development for the smallsh command interpreter (src/main.c).

The C code is shallowly embedded over lists of characters:
* `variableExpansion` models the `$$`-expander (main.c lines 164-207),
* `processCommand` models the parser (main.c lines 215-279),
* `runCommand` models the executor (main.c lines 288-405),
* `handle_SIGTSTP` models the foreground-only toggle handler (main.c lines 106-126).

Machine strings become `List Char`; the fixed-size `arguments[512]` array becomes a
list of `Option` slots (a `none` slot is an entry that the C loop never assigned and
that therefore stays NULL); operating-system effects (fork, waitpid, chdir, getenv)
become explicit oracle inputs in a `SpawnEnv` record, and writes to standard output
become an explicit list of emitted messages.
-/

abbrev Str := List Char

/-- Characters of a Lean string literal, used to write concrete test lines. -/
def strL (s : String) : Str := s.data

/-- Decimal digit character, as produced by snprintf with the %d format. -/
def digitChar (d : Nat) : Char := Char.ofNat (48 + d % 10)

/-- Digits accumulator for the decimal rendering of a nonnegative int.
Models snprintf(buf, len, "%d", n) for the nonnegative n returned by getpid. -/
def natToCharsCore : Nat → Nat → Str → Str
  | 0, _, acc => acc
  | fuel + 1, n, acc =>
    if n < 10 then digitChar n :: acc
    else natToCharsCore fuel (n / 10) (digitChar (n % 10) :: acc)

/-- Decimal text of a natural number (the PID text written by the expander). -/
def natToChars (n : Nat) : Str := natToCharsCore (n + 1) n []

/-- Bool test that the pattern is an initial segment of the list
(the comparison strstr performs at each candidate position). -/
def startsWith : Str → Str → Bool
  | [], _ => true
  | _ :: _, [] => false
  | p :: ps, c :: cs => p == c && startsWith ps cs

/-- Number of positions at which the pattern occurs (overlapping occurrences
all counted); the formal reading of "the text contains K occurrences". -/
def occCount (p : Str) : Str → Nat
  | [] => 0
  | c :: rest => (if startsWith p (c :: rest) then 1 else 0) + occCount p rest

/-- Number of occurrences of the marker "$$" found by the single left-to-right
non-rescanning pass of variableExpansion (main.c lines 182-202): exactly the
occurrences that strstr locates, each consuming both of its characters. -/
def countMarker : Str → Nat
  | [] => 0
  | [_] => 0
  | a :: b :: rest =>
    if a = '$' ∧ b = '$' then countMarker rest + 1
    else countMarker (b :: rest)

/-- Embeds variableExpansion of main.c lines 164-207 with the marker fixed to the
two characters "$$" (the only call site, main.c line 77, passes "$$").  The C loop
repeatedly takes the leftmost strstr occurrence of the marker, copies the text in
front of it, copies the decimal PID text, and resumes right after the occurrence;
scanning character by character and substituting whenever the remaining text starts
with the marker computes the same leftmost-first traversal. -/
def variableExpansion (pidStr : Str) : Str → Str
  | [] => []
  | [c] => [c]
  | a :: b :: rest =>
    if a = '$' ∧ b = '$' then pidStr ++ variableExpansion pidStr rest
    else a :: variableExpansion pidStr (b :: rest)

/-- The marker-free pieces of a line, split at the occurrences that the
left-to-right non-rescanning pass consumes. -/
def splitParts : Str → List Str
  | [] => [[]]
  | [c] => [[c]]
  | a :: b :: rest =>
    if a = '$' ∧ b = '$' then [] :: splitParts rest
    else
      match splitParts (b :: rest) with
      | [] => [[a]]
      | t :: ts => (a :: t) :: ts

/-- Joins pieces with a separator between consecutive pieces. -/
def joinWith (sep : Str) : List Str → Str
  | [] => []
  | [x] => x
  | x :: y :: xs => x ++ sep ++ joinWith sep (y :: xs)

theorem splitParts_ne_nil : ∀ s : Str, splitParts s ≠ []
  | [] => by simp [splitParts]
  | [c] => by simp [splitParts]
  | a :: b :: rest => by
    simp only [splitParts]
    split
    · simp
    · cases h : splitParts (b :: rest) <;> simp

theorem joinWith_cons (sep x : Str) (ps : List Str) (h : ps ≠ []) :
    joinWith sep (x :: ps) = x ++ sep ++ joinWith sep ps := by
  cases ps with
  | nil => exact absurd rfl h
  | cons y ys => rfl

theorem variableExpansion_eq_joinWith (p : Str) :
    ∀ s : Str, variableExpansion p s = joinWith p (splitParts s)
  | [] => rfl
  | [c] => rfl
  | a :: b :: rest => by
    by_cases h : a = '$' ∧ b = '$'
    · simp only [variableExpansion, splitParts, if_pos h]
      rw [joinWith_cons p [] _ (splitParts_ne_nil rest),
        variableExpansion_eq_joinWith p rest]
      simp
    · simp only [variableExpansion, splitParts, if_neg h]
      rw [variableExpansion_eq_joinWith p (b :: rest)]
      cases hsp : splitParts (b :: rest) with
      | nil => exact absurd hsp (splitParts_ne_nil (b :: rest))
      | cons t ts =>
        cases ts with
        | nil => rfl
        | cons y ys => simp [joinWith]

theorem joinWith_marker_splitParts :
    ∀ s : Str, joinWith ['$', '$'] (splitParts s) = s
  | [] => rfl
  | [c] => rfl
  | a :: b :: rest => by
    by_cases h : a = '$' ∧ b = '$'
    · simp only [splitParts, if_pos h]
      rw [joinWith_cons _ [] _ (splitParts_ne_nil rest),
        joinWith_marker_splitParts rest]
      simp [h.1, h.2]
    · simp only [splitParts, if_neg h]
      have hrec := joinWith_marker_splitParts (b :: rest)
      cases hsp : splitParts (b :: rest) with
      | nil => exact absurd hsp (splitParts_ne_nil (b :: rest))
      | cons t ts =>
        rw [hsp] at hrec
        cases ts with
        | nil => simp [joinWith] at hrec ⊢; exact hrec
        | cons y ys =>
          simp [joinWith] at hrec ⊢
          exact hrec

theorem splitParts_length :
    ∀ s : Str, (splitParts s).length = countMarker s + 1
  | [] => rfl
  | [c] => rfl
  | a :: b :: rest => by
    by_cases h : a = '$' ∧ b = '$'
    · simp only [splitParts, countMarker, if_pos h, List.length_cons,
        splitParts_length rest]
    · simp only [splitParts, countMarker, if_neg h]
      have hrec := splitParts_length (b :: rest)
      cases hsp : splitParts (b :: rest) with
      | nil => exact absurd hsp (splitParts_ne_nil (b :: rest))
      | cons t ts =>
        rw [hsp] at hrec
        simpa using hrec

theorem startsWith_marker_false (c : Char) (xs : Str) (hc : c ≠ '$') :
    startsWith ['$', '$'] (c :: xs) = false := by
  simp [startsWith]
  intro h
  exact absurd h.symm hc

theorem occCount_marker_append (p t : Str) (hp : '$' ∉ p) :
    occCount ['$', '$'] (p ++ t) = occCount ['$', '$'] t := by
  induction p with
  | nil => rfl
  | cons c cs ih =>
    have hc : c ≠ '$' := fun h => hp (h ▸ List.mem_cons_self c cs)
    have hcs : '$' ∉ cs := fun h => hp (List.mem_cons_of_mem c h)
    have hsw := startsWith_marker_false c (cs ++ t) hc
    simp [occCount, hsw, ih hcs]

theorem variableExpansion_head (p : Str) (b : Char) (rest : Str) (hb : b ≠ '$') :
    ∃ u : Str, variableExpansion p (b :: rest) = b :: u := by
  cases rest with
  | nil => exact ⟨[], rfl⟩
  | cons c rest =>
    have h : ¬(b = '$' ∧ c = '$') := fun h => hb h.1
    exact ⟨variableExpansion p (c :: rest), by simp [variableExpansion, if_neg h]⟩

theorem occCount_marker_variableExpansion (p : Str) (hp : '$' ∉ p) :
    ∀ s : Str, occCount ['$', '$'] (variableExpansion p s) = 0
  | [] => rfl
  | [c] => by
    simp [variableExpansion, occCount, startsWith]
  | a :: b :: rest => by
    by_cases h : a = '$' ∧ b = '$'
    · simp only [variableExpansion, if_pos h]
      rw [occCount_marker_append p _ hp]
      exact occCount_marker_variableExpansion p hp rest
    · simp only [variableExpansion, if_neg h]
      have hrec := occCount_marker_variableExpansion p hp (b :: rest)
      by_cases ha : a = '$'
      · have hb : b ≠ '$' := fun hb => h ⟨ha, hb⟩
        obtain ⟨u, hu⟩ := variableExpansion_head p b rest hb
        rw [hu] at hrec ⊢
        have hb2 : ('$' == b) = false := beq_eq_false_iff_ne.mpr (Ne.symm hb)
        have hsw : startsWith ['$', '$'] (a :: b :: u) = false := by
          simp [startsWith, hb2]
        rw [occCount, hsw, hrec]
        simp
      · have hsw := startsWith_marker_false a (variableExpansion p (b :: rest)) ha
        rw [occCount, hsw, hrec]
        simp

theorem digitChar_ne_dollar (d : Nat) : digitChar d ≠ '$' := by
  unfold digitChar
  have h : d % 10 < 10 := Nat.mod_lt d (by omega)
  revert h
  generalize d % 10 = k
  intro h
  interval_cases k <;> decide

theorem natToCharsCore_no_dollar (fuel : Nat) :
    ∀ (n : Nat) (acc : Str), '$' ∉ acc → '$' ∉ natToCharsCore fuel n acc := by
  induction fuel with
  | zero => intro n acc hacc; exact hacc
  | succ fuel ih =>
    intro n acc hacc
    simp only [natToCharsCore]
    split
    · intro hmem
      rcases List.mem_cons.mp hmem with h | h
      · exact digitChar_ne_dollar n h.symm
      · exact hacc h
    · apply ih
      intro hmem
      rcases List.mem_cons.mp hmem with h | h
      · exact digitChar_ne_dollar (n % 10) h.symm
      · exact hacc h

theorem natToChars_no_dollar (n : Nat) : '$' ∉ natToChars n :=
  natToCharsCore_no_dollar (n + 1) n [] (by simp)

/-- C1: the token expander rewrites a line in a single left-to-right pass: the
result is the sequence of marker-free pieces of the original line (all characters
other than the consumed markers, unchanged and in order) joined by one copy of the
PID decimal text per non-overlapping marker occurrence (the number of pieces is the
marker count plus one), and no occurrence of the marker remains in the result.
A replacement is never rescanned: each substituted copy comes from a marker of the
original line.  (The corrected form of the claim: the result need not contain
exactly N occurrences of the PID text, since the line may already contain that
text; see the counterexample theorem.) -/
theorem variableExpansion_spec (pid : Nat) (line : Str) :
    variableExpansion (natToChars pid) line
        = joinWith (natToChars pid) (splitParts line)
      ∧ joinWith ['$', '$'] (splitParts line) = line
      ∧ (splitParts line).length = countMarker line + 1
      ∧ occCount ['$', '$'] (variableExpansion (natToChars pid) line) = 0 :=
  ⟨variableExpansion_eq_joinWith (natToChars pid) line,
   joinWith_marker_splitParts line,
   splitParts_length line,
   occCount_marker_variableExpansion (natToChars pid) (natToChars_no_dollar pid) line⟩

/-- C1 counterexample: for the line "1" and PID 1 the line contains the marker
zero times, yet the expanded result contains one occurrence of the PID decimal
text, so expansion does not produce exactly N occurrences of the PID text for a
line with N markers. -/
theorem variableExpansion_count_counterexample :
    countMarker (strL "1") = 0
      ∧ occCount (natToChars 1) (variableExpansion (natToChars 1) (strL "1")) = 1 := by
  constructor <;> rfl

/-- Raw split of a line at every single space, as a list of (possibly empty)
pieces between delimiters. -/
def splitSpaces : Str → List Str
  | [] => [[]]
  | c :: rest =>
    if c = ' ' then [] :: splitSpaces rest
    else
      match splitSpaces rest with
      | [] => [[c]]
      | t :: ts => (c :: t) :: ts

/-- The token stream produced by repeated strtok_r calls with the delimiter set
" " (main.c lines 237-263): maximal nonempty runs between spaces; consecutive
delimiters yield no empty tokens, and a line of only spaces yields no token. -/
def strtokAll (s : Str) : List Str := (splitSpaces s).filter (fun t => !t.isEmpty)

/-- The background test of main.c line 224: strcmp(strrchr(command, 0) - 1, "&")
compares the one-character suffix of the line against "&", so it holds exactly
when the final character of the line is the ampersand. -/
def lastIsAmp (s : Str) : Bool := s.getLast? == some '&'

/-- The ampersand strip of main.c line 226: overwrite the final character with a
terminator, removing exactly one character. -/
def stripAmp (s : Str) : Str := if lastIsAmp s then s.dropLast else s

/-- Keeps the first pointer if it was already assigned, matching the C pattern
of assigning a field only when it is still NULL (or of a later assignment
overwriting an earlier one, read right to left). -/
def optOr (a b : Option Str) : Option Str :=
  match a with
  | some x => some x
  | none => b

/-- The token loop of main.c lines 240-264 over the tokens after the first.
Each loop iteration consumes one token and owns one cell of the arguments array
(the index i increments once per iteration): a "<" token consumes the next token
as the input file and leaves its own cell unassigned (a none slot), a ">" token
does the same for the output file, and any other token is stored in its cell.
A later redirection operand overwrites an earlier one, matching the C
reassignment.  A redirection operator with no following token makes the C code
call strlen(NULL); that undefined path is modelled as none. -/
def argLoop : List Str → Option (Option Str × Option Str × List (Option Str))
  | [] => some (none, none, [])
  | [t] =>
    if t = strL "<" ∨ t = strL ">" then none
    else some (none, none, [some t])
  | t :: f :: rest =>
    if t = strL "<" then
      match argLoop rest with
      | none => none
      | some (iF, oF, slots) => some (optOr iF (some f), oF, none :: slots)
    else if t = strL ">" then
      match argLoop rest with
      | none => none
      | some (iF, oF, slots) => some (iF, optOr oF (some f), none :: slots)
    else
      match argLoop (f :: rest) with
      | none => none
      | some (iF, oF, slots) => some (iF, oF, some t :: slots)

/-- The consumer view of the NULL-terminated arguments array: the entries up to
the first unassigned (NULL) cell, which is where execvp and the free loop of
main stop reading. -/
def takeWhileSome : List (Option Str) → List Str
  | some t :: rest => t :: takeWhileSome rest
  | _ => []

/-- The struct command of main.c lines 29-34.  arguments lists the cells of the
fixed array in order, a none cell being one the parse loop never assigned. -/
structure Command where
  arguments : List (Option Str)
  inputFile : Option Str
  outputFile : Option Str
  backgroundRun : Bool
deriving DecidableEq

/-- The argument vector a consumer of the array sees (NULL-terminated). -/
def Command.argv (c : Command) : List Str := takeWhileSome c.arguments

/-- Cell i of the arguments array (none when out of range or unassigned),
as read by the cd builtin at main.c lines 300-304. -/
def Command.argAt (c : Command) (i : Nat) : Option Str := (c.arguments.get? i).join

/-- arguments[0], which the dispatcher of runCommand compares against the
builtin names.  The parser only returns a command whose cell 0 is assigned. -/
def Command.arg0 (c : Command) : Str :=
  match c.arguments with
  | some t :: _ => t
  | _ => []

/-- The null device path written by main.c lines 271 and 275. -/
def nullDev : Str := strL "/dev/null"

/-- Embeds processCommand of main.c lines 215-279.  The steps, in source order:
set backgroundRun when the final character is the ampersand and strip that one
character (lines 224-229); tokenize on spaces, the first token going to cell 0
of the arguments array (lines 237-238, where a line with no token at all makes
the C code call strdup(NULL), modelled as none); run the token loop (lines
240-264); finally, when backgroundRun is set and the foreground-only mode read
at parse time is off, default each still-unset redirection file to the null
device (lines 266-277). -/
def processCommand (fgMode : Bool) (line : Str) : Option Command :=
  match strtokAll (stripAmp line) with
  | [] => none
  | t0 :: rest =>
    match argLoop rest with
    | none => none
    | some (iF, oF, slots) =>
      some
        { arguments := some t0 :: slots
          inputFile :=
            if lastIsAmp line && !fgMode then optOr iF (some nullDev) else iF
          outputFile :=
            if lastIsAmp line && !fgMode then optOr oF (some nullDev) else oF
          backgroundRun := lastIsAmp line }

theorem processCommand_inv (fg : Bool) (s : Str) (cmd : Command)
    (h : processCommand fg s = some cmd) :
    ∃ t0 rest iF oF slots,
      strtokAll (stripAmp s) = t0 :: rest ∧
      argLoop rest = some (iF, oF, slots) ∧
      cmd = { arguments := some t0 :: slots
              inputFile :=
                if lastIsAmp s && !fg then optOr iF (some nullDev) else iF
              outputFile :=
                if lastIsAmp s && !fg then optOr oF (some nullDev) else oF
              backgroundRun := lastIsAmp s } := by
  rcases htk : strtokAll (stripAmp s) with _ | ⟨t0, rest⟩
  · rw [processCommand, htk] at h
    cases h
  · rcases hal : argLoop rest with _ | ⟨iF, oF, slots⟩
    · rw [processCommand, htk] at h
      simp only [hal] at h
      exact Option.noConfusion h
    · rw [processCommand, htk] at h
      simp only [hal, Option.some.injEq] at h
      exact ⟨t0, rest, iF, oF, slots, rfl, hal, h.symm⟩

theorem argLoop_argv :
    ∀ (ts : List Str) (iF oF : Option Str) (slots : List (Option Str)),
      argLoop ts = some (iF, oF, slots) →
      takeWhileSome slots
        = ts.takeWhile (fun t => !(t == strL "<" || t == strL ">"))
  | [], iF, oF, slots, h => by
    rw [argLoop] at h
    simp only [Option.some.injEq, Prod.mk.injEq] at h
    obtain ⟨h1, h2, h3⟩ := h
    subst h3
    rfl
  | [t], iF, oF, slots, h => by
    rw [argLoop] at h
    by_cases h1 : t = strL "<" ∨ t = strL ">"
    · rw [if_pos h1] at h
      exact Option.noConfusion h
    · rw [if_neg h1] at h
      simp only [Option.some.injEq, Prod.mk.injEq] at h
      obtain ⟨g1, g2, g3⟩ := h
      subst g3
      have hlt : (t == strL "<") = false :=
        beq_eq_false_iff_ne.mpr (fun he => h1 (Or.inl he))
      have hgt : (t == strL ">") = false :=
        beq_eq_false_iff_ne.mpr (fun he => h1 (Or.inr he))
      simp [takeWhileSome, hlt, hgt]
  | t :: f :: rest, iF, oF, slots, h => by
    rw [argLoop] at h
    by_cases h1 : t = strL "<"
    · rcases hal : argLoop rest with _ | ⟨iF2, oF2, slots2⟩ <;>
        rw [if_pos h1] at h <;> simp only [hal] at h
      · exact Option.noConfusion h
      · simp only [Option.some.injEq, Prod.mk.injEq] at h
        obtain ⟨g1, g2, g3⟩ := h
        subst g3
        subst h1
        simp [takeWhileSome]
    · by_cases h2 : t = strL ">"
      · rcases hal : argLoop rest with _ | ⟨iF2, oF2, slots2⟩ <;>
          rw [if_neg h1, if_pos h2] at h <;> simp only [hal] at h
        · exact Option.noConfusion h
        · simp only [Option.some.injEq, Prod.mk.injEq] at h
          obtain ⟨g1, g2, g3⟩ := h
          subst g3
          subst h2
          simp [takeWhileSome]
      · rcases hal : argLoop (f :: rest) with _ | ⟨iF2, oF2, slots2⟩ <;>
          rw [if_neg h1, if_neg h2] at h <;> simp only [hal] at h
        · exact Option.noConfusion h
        · simp only [Option.some.injEq, Prod.mk.injEq] at h
          obtain ⟨g1, g2, g3⟩ := h
          subst g3
          have hlt : (t == strL "<") = false := beq_eq_false_iff_ne.mpr h1
          have hgt : (t == strL ">") = false := beq_eq_false_iff_ne.mpr h2
          simp only [takeWhileSome, List.takeWhile_cons, hlt, hgt,
            Bool.or_false, Bool.not_false, if_true]
          rw [argLoop_argv (f :: rest) iF2 oF2 slots2 hal, List.takeWhile_cons]

theorem argLoop_inputFile_mem :
    ∀ (ts : List Str) (iF oF : Option Str) (slots : List (Option Str)),
      argLoop ts = some (iF, oF, slots) → iF ≠ none → strL "<" ∈ ts
  | [], iF, oF, slots, h, hne => by
    rw [argLoop] at h
    simp only [Option.some.injEq, Prod.mk.injEq] at h
    exact absurd h.1.symm hne
  | [t], iF, oF, slots, h, hne => by
    rw [argLoop] at h
    by_cases h1 : t = strL "<" ∨ t = strL ">"
    · rw [if_pos h1] at h
      exact Option.noConfusion h
    · rw [if_neg h1] at h
      simp only [Option.some.injEq, Prod.mk.injEq] at h
      exact absurd h.1.symm hne
  | t :: f :: rest, iF, oF, slots, h, hne => by
    rw [argLoop] at h
    by_cases h1 : t = strL "<"
    · exact h1 ▸ List.mem_cons_self _ _
    · by_cases h2 : t = strL ">"
      · rcases hal : argLoop rest with _ | ⟨iF2, oF2, slots2⟩ <;>
          rw [if_neg h1, if_pos h2] at h <;> simp only [hal] at h
        · exact Option.noConfusion h
        · simp only [Option.some.injEq, Prod.mk.injEq] at h
          have := argLoop_inputFile_mem rest iF2 oF2 slots2 hal (h.1 ▸ hne)
          exact List.mem_cons_of_mem _ (List.mem_cons_of_mem _ this)
      · rcases hal : argLoop (f :: rest) with _ | ⟨iF2, oF2, slots2⟩ <;>
          rw [if_neg h1, if_neg h2] at h <;> simp only [hal] at h
        · exact Option.noConfusion h
        · simp only [Option.some.injEq, Prod.mk.injEq] at h
          have := argLoop_inputFile_mem (f :: rest) iF2 oF2 slots2 hal (h.1 ▸ hne)
          exact List.mem_cons_of_mem _ this

theorem argLoop_outputFile_mem :
    ∀ (ts : List Str) (iF oF : Option Str) (slots : List (Option Str)),
      argLoop ts = some (iF, oF, slots) → oF ≠ none → strL ">" ∈ ts
  | [], iF, oF, slots, h, hne => by
    rw [argLoop] at h
    simp only [Option.some.injEq, Prod.mk.injEq] at h
    exact absurd h.2.1.symm hne
  | [t], iF, oF, slots, h, hne => by
    rw [argLoop] at h
    by_cases h1 : t = strL "<" ∨ t = strL ">"
    · rw [if_pos h1] at h
      exact Option.noConfusion h
    · rw [if_neg h1] at h
      simp only [Option.some.injEq, Prod.mk.injEq] at h
      exact absurd h.2.1.symm hne
  | t :: f :: rest, iF, oF, slots, h, hne => by
    rw [argLoop] at h
    by_cases h2 : t = strL ">"
    · exact h2 ▸ List.mem_cons_self _ _
    · by_cases h1 : t = strL "<"
      · rcases hal : argLoop rest with _ | ⟨iF2, oF2, slots2⟩ <;>
          rw [if_pos h1] at h <;> simp only [hal] at h
        · exact Option.noConfusion h
        · simp only [Option.some.injEq, Prod.mk.injEq] at h
          have := argLoop_outputFile_mem rest iF2 oF2 slots2 hal (h.2.1 ▸ hne)
          exact List.mem_cons_of_mem _ (List.mem_cons_of_mem _ this)
      · rcases hal : argLoop (f :: rest) with _ | ⟨iF2, oF2, slots2⟩ <;>
          rw [if_neg h1, if_neg h2] at h <;> simp only [hal] at h
        · exact Option.noConfusion h
        · simp only [Option.some.injEq, Prod.mk.injEq] at h
          have := argLoop_outputFile_mem (f :: rest) iF2 oF2 slots2 hal (h.2.1 ▸ hne)
          exact List.mem_cons_of_mem _ this

/-- C2 (corrected): the parsed backgroundRun flag is true exactly when the final
character of the raw line is the ampersand, because the check at main.c line 224
compares only the one-character suffix of the line against the ampersand; that
single character (not a whole token) is then stripped before tokenizing.  The
flag does not require the ampersand to be a standalone space-delimited token. -/
theorem processCommand_backgroundRun_iff (fg : Bool) (s : Str) (cmd : Command)
    (h : processCommand fg s = some cmd) :
    cmd.backgroundRun = true ↔ s.getLast? = some '&' := by
  obtain ⟨t0, rest, iF, oF, slots, _, _, hc⟩ := processCommand_inv fg s cmd h
  subst hc
  simp [lastIsAmp]

theorem processCommand_backgroundRun_iff_witness :
    (Command.backgroundRun
        ⟨[some (strL "sleep"), some (strL "5")], some nullDev, some nullDev, true⟩
          = true
      ↔ (strL "sleep 5 &").getLast? = some '&') :=
  processCommand_backgroundRun_iff false (strL "sleep 5 &")
    ⟨[some (strL "sleep"), some (strL "5")], some nullDev, some nullDev, true⟩
    (by decide)

/-- C2 counterexample: the line "echo hi&" has the ampersand as its final
character but not as a standalone space-delimited token (the last token is
"hi&"), yet the parser sets backgroundRun, contradicting the claim that a line
whose final character is the ampersand without a standalone ampersand token
does not set the flag. -/
theorem processCommand_amp_counterexample :
    (processCommand false (strL "echo hi&")).map Command.backgroundRun = some true
      ∧ (strtokAll (strL "echo hi&")).getLast? ≠ some (strL "&") := by
  exact ⟨by rfl, by decide⟩

/-- C3: for a parsed command with backgroundRun true, the null-device synthesis
of main.c lines 266-277 runs exactly when the foreground-only mode read at parse
time is off: each redirection file still unset after the token loop is then set
to the null-device path, and an explicitly given file is kept; when the mode is
on, neither file is synthesized.  Concretely, parsing "sleep 5 &" yields
backgroundRun true and argument vector [sleep, 5], with both files the null
device exactly when the mode is off. -/
theorem processCommand_background_nullDev (fg : Bool) (s : Str) (cmd : Command)
    (h : processCommand fg s = some cmd) (hbg : cmd.backgroundRun = true) :
    (∃ t0 rest iF oF slots,
      strtokAll (stripAmp s) = t0 :: rest ∧
      argLoop rest = some (iF, oF, slots) ∧
      (fg = false →
        cmd.inputFile = optOr iF (some nullDev) ∧
        cmd.outputFile = optOr oF (some nullDev)) ∧
      (fg = true → cmd.inputFile = iF ∧ cmd.outputFile = oF))
    ∧ processCommand false (strL "sleep 5 &")
        = some ⟨[some (strL "sleep"), some (strL "5")],
            some nullDev, some nullDev, true⟩
    ∧ processCommand true (strL "sleep 5 &")
        = some ⟨[some (strL "sleep"), some (strL "5")], none, none, true⟩ := by
  refine ⟨?_, by rfl, by rfl⟩
  obtain ⟨t0, rest, iF, oF, slots, h1, h2, hc⟩ := processCommand_inv fg s cmd h
  subst hc
  have hamp : lastIsAmp s = true := hbg
  refine ⟨t0, rest, iF, oF, slots, h1, h2, ?_, ?_⟩
  · intro hfg
    subst hfg
    simp [hamp]
  · intro hfg
    subst hfg
    simp [hamp]

theorem processCommand_background_nullDev_witness :
    (∃ t0 rest iF oF slots,
      strtokAll (stripAmp (strL "sleep 5 &")) = t0 :: rest ∧
      argLoop rest = some (iF, oF, slots) ∧
      (false = false →
        Command.inputFile
            ⟨[some (strL "sleep"), some (strL "5")],
              some nullDev, some nullDev, true⟩ = optOr iF (some nullDev) ∧
        Command.outputFile
            ⟨[some (strL "sleep"), some (strL "5")],
              some nullDev, some nullDev, true⟩ = optOr oF (some nullDev)) ∧
      (false = true →
        Command.inputFile
            ⟨[some (strL "sleep"), some (strL "5")],
              some nullDev, some nullDev, true⟩ = iF ∧
        Command.outputFile
            ⟨[some (strL "sleep"), some (strL "5")],
              some nullDev, some nullDev, true⟩ = oF))
    ∧ processCommand false (strL "sleep 5 &")
        = some ⟨[some (strL "sleep"), some (strL "5")],
            some nullDev, some nullDev, true⟩
    ∧ processCommand true (strL "sleep 5 &")
        = some ⟨[some (strL "sleep"), some (strL "5")], none, none, true⟩ :=
  processCommand_background_nullDev false (strL "sleep 5 &")
    ⟨[some (strL "sleep"), some (strL "5")], some nullDev, some nullDev, true⟩
    (by rfl) (by rfl)

/-- C4 (corrected): the token loop stores each regular token at the arguments
array cell of its own loop iteration, and an iteration that sees a redirection
operator consumes the operand but leaves its cell unassigned (NULL), because the
index i of main.c line 241 increments on every iteration.  Hence the
NULL-terminated argument vector that consumers of the array see is the first
token followed by exactly the regular tokens that precede the first redirection
operator: a regular token appearing after a redirection operator/operand pair
sits beyond a NULL gap and is cut off from the vector, contradicting the claim
that all regular tokens are appended contiguously. -/
theorem processCommand_argv_takeWhile (fg : Bool) (s : Str) (cmd : Command)
    (h : processCommand fg s = some cmd) :
    ∃ t0 rest, strtokAll (stripAmp s) = t0 :: rest ∧
      cmd.argv
        = t0 :: rest.takeWhile (fun t => !(t == strL "<" || t == strL ">")) := by
  obtain ⟨t0, rest, iF, oF, slots, h1, h2, hc⟩ := processCommand_inv fg s cmd h
  subst hc
  refine ⟨t0, rest, h1, ?_⟩
  have := argLoop_argv rest iF oF slots h2
  simp [Command.argv, takeWhileSome, this]

theorem processCommand_argv_takeWhile_witness :
    ∃ t0 rest, strtokAll (stripAmp (strL "wc < in.txt > out.txt")) = t0 :: rest ∧
      Command.argv
          ⟨[some (strL "wc"), none, none],
            some (strL "in.txt"), some (strL "out.txt"), false⟩
        = t0 :: rest.takeWhile (fun t => !(t == strL "<" || t == strL ">")) :=
  processCommand_argv_takeWhile false (strL "wc < in.txt > out.txt")
    ⟨[some (strL "wc"), none, none],
      some (strL "in.txt"), some (strL "out.txt"), false⟩
    (by rfl)

/-- C4 counterexample: parsing "a < i b" leaves the arguments array with a NULL
gap at cell 1 (the iteration that consumed the redirection pair) and stores the
regular token "b" at cell 2, so the NULL-terminated argument vector is just [a]:
the regular token after the redirection pair is not appended contiguously. -/
theorem processCommand_gap_counterexample :
    (processCommand false (strL "a < i b")).map Command.arguments
        = some [some (strL "a"), none, some (strL "b")]
      ∧ (processCommand false (strL "a < i b")).map Command.argv
        = some [strL "a"] := by
  exact ⟨by rfl, by rfl⟩

/-- C5: a redirection file of a parsed command is absent unless the matching
redirection operator token occurred in the (ampersand-stripped) line or the
null-device synthesis for an unattended background command applied; parsing
"echo hi" yields the argument cells [echo, hi], no redirection files, and
backgroundRun false. -/
theorem processCommand_files_absent (fg : Bool) (s : Str) (cmd : Command)
    (h : processCommand fg s = some cmd) :
    (cmd.inputFile ≠ none →
        strL "<" ∈ strtokAll (stripAmp s)
          ∨ (cmd.backgroundRun = true ∧ fg = false
              ∧ cmd.inputFile = some nullDev))
    ∧ (cmd.outputFile ≠ none →
        strL ">" ∈ strtokAll (stripAmp s)
          ∨ (cmd.backgroundRun = true ∧ fg = false
              ∧ cmd.outputFile = some nullDev))
    ∧ processCommand false (strL "echo hi")
        = some ⟨[some (strL "echo"), some (strL "hi")], none, none, false⟩ := by
  obtain ⟨t0, rest, iF, oF, slots, h1, h2, hc⟩ := processCommand_inv fg s cmd h
  have hin : cmd.inputFile
      = if (lastIsAmp s && !fg) = true then optOr iF (some nullDev) else iF := by
    rw [hc]
  have hout : cmd.outputFile
      = if (lastIsAmp s && !fg) = true then optOr oF (some nullDev) else oF := by
    rw [hc]
  have hbgr : cmd.backgroundRun = lastIsAmp s := by rw [hc]
  rw [h1]
  refine ⟨?_, ?_, by rfl⟩
  · intro hne
    rw [hin] at hne
    by_cases hcond : (lastIsAmp s && !fg) = true
    · rw [if_pos hcond] at hne
      cases hif : iF with
      | some f =>
        exact Or.inl (List.mem_cons_of_mem _
          (argLoop_inputFile_mem rest iF oF slots h2 (by simp [hif])))
      | none =>
        subst hif
        refine Or.inr ⟨?_, ?_, ?_⟩
        · rw [hbgr]
          exact (Bool.and_eq_true _ _ ▸ hcond).1
        · have h3 := (Bool.and_eq_true _ _ ▸ hcond).2
          simpa using h3
        · rw [hin, if_pos hcond]
          rfl
    · rw [if_neg hcond] at hne
      exact Or.inl (List.mem_cons_of_mem _
        (argLoop_inputFile_mem rest iF oF slots h2 hne))
  · intro hne
    rw [hout] at hne
    by_cases hcond : (lastIsAmp s && !fg) = true
    · rw [if_pos hcond] at hne
      cases hof : oF with
      | some f =>
        exact Or.inl (List.mem_cons_of_mem _
          (argLoop_outputFile_mem rest iF oF slots h2 (by simp [hof])))
      | none =>
        subst hof
        refine Or.inr ⟨?_, ?_, ?_⟩
        · rw [hbgr]
          exact (Bool.and_eq_true _ _ ▸ hcond).1
        · have h3 := (Bool.and_eq_true _ _ ▸ hcond).2
          simpa using h3
        · rw [hout, if_pos hcond]
          rfl
    · rw [if_neg hcond] at hne
      exact Or.inl (List.mem_cons_of_mem _
        (argLoop_outputFile_mem rest iF oF slots h2 hne))

theorem processCommand_files_absent_witness :
    (Command.inputFile
          ⟨[some (strL "echo"), some (strL "hi")], none, none, false⟩ ≠ none →
        strL "<" ∈ strtokAll (stripAmp (strL "echo hi"))
          ∨ (Command.backgroundRun
                ⟨[some (strL "echo"), some (strL "hi")], none, none, false⟩ = true
              ∧ false = false
              ∧ Command.inputFile
                  ⟨[some (strL "echo"), some (strL "hi")], none, none, false⟩
                = some nullDev))
    ∧ (Command.outputFile
          ⟨[some (strL "echo"), some (strL "hi")], none, none, false⟩ ≠ none →
        strL ">" ∈ strtokAll (stripAmp (strL "echo hi"))
          ∨ (Command.backgroundRun
                ⟨[some (strL "echo"), some (strL "hi")], none, none, false⟩ = true
              ∧ false = false
              ∧ Command.outputFile
                  ⟨[some (strL "echo"), some (strL "hi")], none, none, false⟩
                = some nullDev))
    ∧ processCommand false (strL "echo hi")
        = some ⟨[some (strL "echo"), some (strL "hi")], none, none, false⟩ :=
  processCommand_files_absent false (strL "echo hi")
    ⟨[some (strL "echo"), some (strL "hi")], none, none, false⟩ (by rfl)

/-- Operating-system oracle for one runCommand call: the outcome the kernel
would give to fork (forkOk false models a -1 return), the child PID a
successful fork returns, the wait status waitpid would store for that child,
the value of the HOME environment variable, and which paths name directories
that chdir can enter. -/
structure SpawnEnv where
  forkOk : Bool
  childPid : Nat
  childStatus : Nat
  homeDir : Str
  dirExists : Str → Bool

/-- One message written to standard output by the executor or the signal
handler, one constructor per distinct format string in main.c:
exitValue is "exit value %d" (lines 310 and 147), terminatedBySignal is
"terminated by signal %d" (line 313), fgTerminatedBySignal is the
" terminated by signal %d" report of the parent after a foreground wait
(line 390), backgroundPid is "background pid is %d" (line 397), forkError is
the perror report of line 324, enterFgOnly and exitFgOnly are the two fixed
handler messages (lines 109 and 117), and prompt is the ": " marker
(line 123). -/
inductive OutMsg where
  | exitValue (n : Nat)
  | terminatedBySignal (n : Nat)
  | fgTerminatedBySignal (n : Nat)
  | backgroundPid (p : Nat)
  | forkError
  | enterFgOnly
  | exitFgOnly
  | prompt
deriving DecidableEq

/-- Whether a runCommand call terminates the whole interpreter process (an
exit call in the parent) or returns to the read loop. -/
inductive ShellAction where
  | exitShell (code : Nat)
  | next
deriving DecidableEq

/-- Observable result of one runCommand call in the parent process: the
action, the returned foreground status, the working directory after the call,
and the messages written to standard output. -/
structure RunResult where
  action : ShellAction
  fStatus : Nat
  cwd : Str
  outputs : List OutMsg
deriving DecidableEq

/-- WIFEXITED of glibc: the low seven bits of the wait status are zero. -/
def wifexited (s : Nat) : Bool := s % 128 == 0

/-- WEXITSTATUS of glibc: bits eight to fifteen of the wait status. -/
def wexitstatus (s : Nat) : Nat := (s / 256) % 256

/-- WIFSIGNALED of glibc: the signed char cast of (low seven bits plus one),
shifted right once, is positive, which holds exactly when the low seven bits
are neither 0 nor 127. -/
def wifsignaled (s : Nat) : Bool := s % 128 != 0 && s % 128 != 127

/-- WTERMSIG of glibc: the low seven bits of the wait status. -/
def wtermsig (s : Nat) : Nat := s % 128

/-- Embeds the parent-side behavior of runCommand, main.c lines 288-405.
Dispatch on arguments[0]: the exit builtin calls exit(0) (line 295); the cd
builtin calls chdir on arguments[1], or on the HOME environment value when that
cell is NULL (lines 299-305) - the chdir return value is ignored, so a failed
change produces no message and leaves the working directory unchanged; the
status builtin prints the decoded last foreground status (lines 308-315); any
other name forks.  A failed fork reports and calls exit(1) (lines 323-325).
On a successful fork the parent waits when the command is not background or
foreground-only mode is on, storing the wait status into fStatus and reporting
a signal death (lines 386-393); otherwise it reports the background PID and
does not wait (lines 396-399).  The child branch (lines 327-383) runs in the
child process, not in the interpreter, and is outside this model.  The
function returns fStatus (line 403). -/
def runCommand (fgMode : Bool) (env : SpawnEnv) (cwd : Str) (c : Command)
    (fStatus : Nat) : RunResult :=
  if c.arg0 = strL "exit" then
    { action := ShellAction.exitShell 0, fStatus := fStatus, cwd := cwd, outputs := [] }
  else if c.arg0 = strL "cd" then
    let target :=
      match c.argAt 1 with
      | none => env.homeDir
      | some p => p
    { action := ShellAction.next
      fStatus := fStatus
      cwd := if env.dirExists target then target else cwd
      outputs := [] }
  else if c.arg0 = strL "status" then
    { action := ShellAction.next
      fStatus := fStatus
      cwd := cwd
      outputs :=
        if wifexited fStatus then [OutMsg.exitValue (wexitstatus fStatus)]
        else if wifsignaled fStatus then
          [OutMsg.terminatedBySignal (wtermsig fStatus)]
        else [] }
  else
    if env.forkOk = false then
      { action := ShellAction.exitShell 1, fStatus := fStatus, cwd := cwd
        outputs := [OutMsg.forkError] }
    else if c.backgroundRun = false ∨ fgMode = true then
      { action := ShellAction.next
        fStatus := env.childStatus
        cwd := cwd
        outputs :=
          if wifsignaled env.childStatus then
            [OutMsg.fgTerminatedBySignal (wtermsig env.childStatus)]
          else [] }
    else
      { action := ShellAction.next, fStatus := fStatus, cwd := cwd
        outputs := [OutMsg.backgroundPid env.childPid] }

/-- Embeds handle_SIGTSTP, main.c lines 106-126: from mode off, write the
entering message and set the mode on; from mode on, write the exiting message
and set the mode off; always re-emit the prompt marker afterwards.  Returns
the new mode and the messages written. -/
def handle_SIGTSTP (m : Bool) : Bool × List OutMsg :=
  if m = false then (true, [OutMsg.enterFgOnly, OutMsg.prompt])
  else (false, [OutMsg.exitFgOnly, OutMsg.prompt])

/-- Two consecutive deliveries of the toggle signal: resulting mode and the
concatenation of the messages of both handler runs. -/
def doubleToggle (m : Bool) : Bool × List OutMsg :=
  ((handle_SIGTSTP (handle_SIGTSTP m).1).1,
    (handle_SIGTSTP m).2 ++ (handle_SIGTSTP (handle_SIGTSTP m).1).2)

/-- C6: for a command whose name cell is "status", runCommand returns the
incoming foreground status unchanged and continues the loop; when the incoming
status encodes a normal exit with code n (wait status 256 * n with n < 256) it
prints the exit-value message for n, and when it encodes death by signal g
(wait status g with 0 < g < 127) it prints the terminated-by-signal message
for g. -/
theorem runCommand_status_spec (fg : Bool) (env : SpawnEnv) (cwd : Str)
    (c : Command) (fS n g : Nat) (harg : c.arg0 = strL "status") :
    (runCommand fg env cwd c fS).fStatus = fS
    ∧ (runCommand fg env cwd c fS).action = ShellAction.next
    ∧ (fS = 256 * n → n < 256 →
        (runCommand fg env cwd c fS).outputs = [OutMsg.exitValue n])
    ∧ (fS = g → 0 < g → g < 127 →
        (runCommand fg env cwd c fS).outputs
          = [OutMsg.terminatedBySignal g]) := by
  have h1 : ¬c.arg0 = strL "exit" := by rw [harg]; decide
  have h2 : ¬c.arg0 = strL "cd" := by rw [harg]; decide
  unfold runCommand
  rw [if_neg h1, if_neg h2, if_pos harg]
  refine ⟨rfl, rfl, ?_, ?_⟩
  · intro hfs hn
    subst hfs
    have hex : wifexited (256 * n) = true := by
      unfold wifexited
      simp
      omega
    have hwes : wexitstatus (256 * n) = n := by
      unfold wexitstatus
      omega
    simp only [hex, if_true, hwes]
  · intro hfs h0 h127
    have hex : wifexited fS = false := by
      unfold wifexited
      simp
      omega
    have hsg : wifsignaled fS = true := by
      unfold wifsignaled
      simp
      omega
    have hts : wtermsig fS = g := by
      unfold wtermsig
      omega
    simp only [hex, hsg, if_true, Bool.false_eq_true, if_false, hts]

theorem runCommand_status_spec_witness :
    (runCommand false ⟨true, 7, 0, strL "/home/user", fun _ => true⟩
        (strL "/work") ⟨[some (strL "status")], none, none, false⟩ 768).fStatus
      = 768
    ∧ (runCommand false ⟨true, 7, 0, strL "/home/user", fun _ => true⟩
        (strL "/work") ⟨[some (strL "status")], none, none, false⟩ 768).action
      = ShellAction.next
    ∧ (768 = 256 * 3 → 3 < 256 →
        (runCommand false ⟨true, 7, 0, strL "/home/user", fun _ => true⟩
          (strL "/work") ⟨[some (strL "status")], none, none, false⟩ 768).outputs
        = [OutMsg.exitValue 3])
    ∧ (768 = 9 → 0 < 9 → 9 < 127 →
        (runCommand false ⟨true, 7, 0, strL "/home/user", fun _ => true⟩
          (strL "/work") ⟨[some (strL "status")], none, none, false⟩ 768).outputs
        = [OutMsg.terminatedBySignal 9]) :=
  runCommand_status_spec false ⟨true, 7, 0, strL "/home/user", fun _ => true⟩
    (strL "/work") ⟨[some (strL "status")], none, none, false⟩ 768 3 9 (by rfl)

/-- C7 (corrected): for a command whose name cell is "cd", runCommand returns
the incoming foreground status unchanged and continues; with no cell 1 the
target is the HOME environment value, otherwise cell 1; a failed directory
change leaves the working directory unchanged; but a failure is NOT reported:
the chdir return value at main.c lines 301-303 is ignored and the cd branch
emits no output at all, so no error message reaches the user. -/
theorem runCommand_cd_spec (fg : Bool) (env : SpawnEnv) (cwd : Str)
    (c : Command) (fS : Nat) (harg : c.arg0 = strL "cd") :
    (runCommand fg env cwd c fS).fStatus = fS
    ∧ (runCommand fg env cwd c fS).action = ShellAction.next
    ∧ (runCommand fg env cwd c fS).outputs = []
    ∧ (c.argAt 1 = none →
        (runCommand fg env cwd c fS).cwd
          = if env.dirExists env.homeDir then env.homeDir else cwd)
    ∧ (∀ p, c.argAt 1 = some p →
        (runCommand fg env cwd c fS).cwd = if env.dirExists p then p else cwd) := by
  have h1 : ¬c.arg0 = strL "exit" := by rw [harg]; decide
  unfold runCommand
  rw [if_neg h1, if_pos harg]
  refine ⟨rfl, rfl, rfl, ?_, ?_⟩
  · intro ha
    rw [ha]
  · intro p ha
    rw [ha]

theorem runCommand_cd_spec_witness :
    (runCommand false ⟨true, 7, 0, strL "/home/user", fun _ => false⟩
        (strL "/work")
        ⟨[some (strL "cd"), some (strL "/nonexistent")], none, none, false⟩
        5).fStatus = 5
    ∧ (runCommand false ⟨true, 7, 0, strL "/home/user", fun _ => false⟩
        (strL "/work")
        ⟨[some (strL "cd"), some (strL "/nonexistent")], none, none, false⟩
        5).action = ShellAction.next
    ∧ (runCommand false ⟨true, 7, 0, strL "/home/user", fun _ => false⟩
        (strL "/work")
        ⟨[some (strL "cd"), some (strL "/nonexistent")], none, none, false⟩
        5).outputs = []
    ∧ (Command.argAt
          ⟨[some (strL "cd"), some (strL "/nonexistent")], none, none, false⟩ 1
            = none →
        (runCommand false ⟨true, 7, 0, strL "/home/user", fun _ => false⟩
          (strL "/work")
          ⟨[some (strL "cd"), some (strL "/nonexistent")], none, none, false⟩
          5).cwd
        = if SpawnEnv.dirExists ⟨true, 7, 0, strL "/home/user", fun _ => false⟩
              (strL "/home/user") = true
          then strL "/home/user" else strL "/work")
    ∧ (∀ p, Command.argAt
          ⟨[some (strL "cd"), some (strL "/nonexistent")], none, none, false⟩ 1
            = some p →
        (runCommand false ⟨true, 7, 0, strL "/home/user", fun _ => false⟩
          (strL "/work")
          ⟨[some (strL "cd"), some (strL "/nonexistent")], none, none, false⟩
          5).cwd
        = if SpawnEnv.dirExists ⟨true, 7, 0, strL "/home/user", fun _ => false⟩ p
              = true
          then p else strL "/work") :=
  runCommand_cd_spec false ⟨true, 7, 0, strL "/home/user", fun _ => false⟩
    (strL "/work")
    ⟨[some (strL "cd"), some (strL "/nonexistent")], none, none, false⟩
    5 (by rfl)

/-- C7 counterexample: running cd with the nonexistent target "/nonexistent"
(the directory oracle rejects every path) emits no message at all and leaves
the working directory unchanged, refuting the part of the claim that says the
failure is reported to the user. -/
theorem runCommand_cd_silent_counterexample :
    (runCommand false ⟨true, 7, 0, strL "/home/user", fun _ => false⟩
        (strL "/work")
        ⟨[some (strL "cd"), some (strL "/nonexistent")], none, none, false⟩
        0).outputs = []
    ∧ (runCommand false ⟨true, 7, 0, strL "/home/user", fun _ => false⟩
        (strL "/work")
        ⟨[some (strL "cd"), some (strL "/nonexistent")], none, none, false⟩
        0).cwd = strL "/work" := by
  exact ⟨rfl, rfl⟩

/-- C8 (corrected): delivering the toggle signal twice returns the Mode State
to its original value from either starting state; each off-to-on transition
emits the fixed entering message and each on-to-off transition emits the fixed
exiting message, both followed by the re-emitted prompt marker; starting from
the off state (the initial state) the two transitions emit the entering message
and then the exiting message.  (Starting from the on state the order is
reversed; see the counterexample theorem.) -/
theorem handle_SIGTSTP_toggle_spec (m : Bool) :
    (doubleToggle m).1 = m
    ∧ handle_SIGTSTP false = (true, [OutMsg.enterFgOnly, OutMsg.prompt])
    ∧ handle_SIGTSTP true = (false, [OutMsg.exitFgOnly, OutMsg.prompt])
    ∧ (doubleToggle false).2
        = [OutMsg.enterFgOnly, OutMsg.prompt, OutMsg.exitFgOnly, OutMsg.prompt] := by
  cases m <;> exact ⟨rfl, rfl, rfl, rfl⟩

/-- C8 counterexample: starting from Mode State on, the first delivery emits the
exiting message, not the entering message, so the claim that the first of the
two transitions always emits the entering message fails for that start state
(the state still returns to its original value). -/
theorem handle_SIGTSTP_order_counterexample :
    (doubleToggle true).2
        = [OutMsg.exitFgOnly, OutMsg.prompt, OutMsg.enterFgOnly, OutMsg.prompt]
    ∧ (doubleToggle true).1 = true
    ∧ OutMsg.exitFgOnly ≠ OutMsg.enterFgOnly := by
  exact ⟨rfl, rfl, by decide⟩

/-- C9: the executor terminates the interpreter process only through the exit
builtin, with status 0, or through a reported fork failure, with the fork error
message emitted; conversely a fork failure on a non-builtin command is fatal:
it reports the error and exits the interpreter with status 1. -/
theorem runCommand_termination_spec (fg : Bool) (env : SpawnEnv) (cwd : Str)
    (c : Command) (fS : Nat) :
    (∀ code : Nat,
      (runCommand fg env cwd c fS).action = ShellAction.exitShell code →
      (code = 0 ∧ c.arg0 = strL "exit")
        ∨ (code = 1 ∧ env.forkOk = false
            ∧ (runCommand fg env cwd c fS).outputs = [OutMsg.forkError]))
    ∧ (env.forkOk = false → c.arg0 ≠ strL "exit" → c.arg0 ≠ strL "cd" →
        c.arg0 ≠ strL "status" →
        (runCommand fg env cwd c fS).action = ShellAction.exitShell 1
          ∧ (runCommand fg env cwd c fS).outputs = [OutMsg.forkError]) := by
  by_cases h1 : c.arg0 = strL "exit"
  · unfold runCommand
    rw [if_pos h1]
    constructor
    · intro code hc
      injection hc with hc
      exact Or.inl ⟨hc.symm, h1⟩
    · intro _ hex _ _
      exact absurd h1 hex
  · by_cases h2 : c.arg0 = strL "cd"
    · unfold runCommand
      rw [if_neg h1, if_pos h2]
      constructor
      · intro code hc
        exact ShellAction.noConfusion hc
      · intro _ _ hcd _
        exact absurd h2 hcd
    · by_cases h3 : c.arg0 = strL "status"
      · unfold runCommand
        rw [if_neg h1, if_neg h2, if_pos h3]
        constructor
        · intro code hc
          exact ShellAction.noConfusion hc
        · intro _ _ _ hst
          exact absurd h3 hst
      · by_cases hf : env.forkOk = false
        · unfold runCommand
          rw [if_neg h1, if_neg h2, if_neg h3, if_pos hf]
          constructor
          · intro code hc
            injection hc with hc
            exact Or.inr ⟨hc.symm, hf, rfl⟩
          · intro _ _ _ _
            exact ⟨rfl, rfl⟩
        · unfold runCommand
          rw [if_neg h1, if_neg h2, if_neg h3, if_neg hf]
          constructor
          · intro code hc
            by_cases hw : c.backgroundRun = false ∨ fg = true
            · rw [if_pos hw] at hc
              exact ShellAction.noConfusion hc
            · rw [if_neg hw] at hc
              exact ShellAction.noConfusion hc
          · intro hff _ _ _
            exact absurd hff hf

theorem runCommand_termination_spec_witness :
    (0 = 0
        ∧ Command.arg0 ⟨[some (strL "exit")], none, none, false⟩ = strL "exit")
      ∨ (0 = 1
          ∧ SpawnEnv.forkOk ⟨true, 7, 0, strL "/home/user", fun _ => true⟩ = false
          ∧ (runCommand false ⟨true, 7, 0, strL "/home/user", fun _ => true⟩
              (strL "/work") ⟨[some (strL "exit")], none, none, false⟩
              0).outputs = [OutMsg.forkError]) :=
  (runCommand_termination_spec false ⟨true, 7, 0, strL "/home/user", fun _ => true⟩
      (strL "/work") ⟨[some (strL "exit")], none, none, false⟩ 0).1 0 (by rfl)

/-- C10: launching a genuine background external command (background flag set,
foreground-only mode off, fork successful, name not a builtin) leaves the
foreground status exactly as it came in - the parent does not wait and only
reports the background PID - so a background launch never changes what the
status builtin later reports; moreover, whenever a runCommand call returns a
foreground status different from the one passed in, that call awaited a
foreground-equivalent child (its command was not background-flagged or
foreground-only mode was on). -/
theorem runCommand_background_frame (env : SpawnEnv) (cwd : Str) (c : Command)
    (fS : Nat) (h1 : c.arg0 ≠ strL "exit") (h2 : c.arg0 ≠ strL "cd")
    (h3 : c.arg0 ≠ strL "status") (hbg : c.backgroundRun = true)
    (hfork : env.forkOk = true) :
    (runCommand false env cwd c fS).fStatus = fS
    ∧ (runCommand false env cwd c fS).action = ShellAction.next
    ∧ (runCommand false env cwd c fS).outputs
        = [OutMsg.backgroundPid env.childPid]
    ∧ (∀ (fg2 : Bool) (env2 : SpawnEnv) (cwd2 : Str) (c2 : Command),
        (runCommand fg2 env2 cwd2 c2 fS).fStatus ≠ fS →
        (c2.backgroundRun = false ∨ fg2 = true)) := by
  have hf : ¬env.forkOk = false := by rw [hfork]; decide
  have hw : ¬(c.backgroundRun = false ∨ false = true) := by
    rw [hbg]
    rintro (hc | hc) <;> exact Bool.noConfusion hc
  refine ⟨?_, ?_, ?_, ?_⟩
  · unfold runCommand
    rw [if_neg h1, if_neg h2, if_neg h3, if_neg hf, if_neg hw]
  · unfold runCommand
    rw [if_neg h1, if_neg h2, if_neg h3, if_neg hf, if_neg hw]
  · unfold runCommand
    rw [if_neg h1, if_neg h2, if_neg h3, if_neg hf, if_neg hw]
  · intro fg2 env2 cwd2 c2 hne
    by_cases k1 : c2.arg0 = strL "exit"
    · exfalso
      apply hne
      unfold runCommand
      rw [if_pos k1]
    · by_cases k2 : c2.arg0 = strL "cd"
      · exfalso
        apply hne
        unfold runCommand
        rw [if_neg k1, if_pos k2]
      · by_cases k3 : c2.arg0 = strL "status"
        · exfalso
          apply hne
          unfold runCommand
          rw [if_neg k1, if_neg k2, if_pos k3]
        · by_cases kf : env2.forkOk = false
          · exfalso
            apply hne
            unfold runCommand
            rw [if_neg k1, if_neg k2, if_neg k3, if_pos kf]
          · by_cases kw : c2.backgroundRun = false ∨ fg2 = true
            · exact kw
            · exfalso
              apply hne
              unfold runCommand
              rw [if_neg k1, if_neg k2, if_neg k3, if_neg kf, if_neg kw]

theorem runCommand_background_frame_witness :
    (runCommand false ⟨true, 42, 0, strL "/home/user", fun _ => true⟩
        (strL "/work")
        ⟨[some (strL "ls")], some nullDev, some nullDev, true⟩ 5).fStatus = 5
    ∧ (runCommand false ⟨true, 42, 0, strL "/home/user", fun _ => true⟩
        (strL "/work")
        ⟨[some (strL "ls")], some nullDev, some nullDev, true⟩ 5).action
      = ShellAction.next
    ∧ (runCommand false ⟨true, 42, 0, strL "/home/user", fun _ => true⟩
        (strL "/work")
        ⟨[some (strL "ls")], some nullDev, some nullDev, true⟩ 5).outputs
      = [OutMsg.backgroundPid
          (SpawnEnv.childPid ⟨true, 42, 0, strL "/home/user", fun _ => true⟩)]
    ∧ (∀ (fg2 : Bool) (env2 : SpawnEnv) (cwd2 : Str) (c2 : Command),
        (runCommand fg2 env2 cwd2 c2 5).fStatus ≠ 5 →
        (c2.backgroundRun = false ∨ fg2 = true)) :=
  runCommand_background_frame ⟨true, 42, 0, strL "/home/user", fun _ => true⟩
    (strL "/work") ⟨[some (strL "ls")], some nullDev, some nullDev, true⟩ 5
    (by decide) (by decide) (by decide) (by rfl) (by rfl)
